import Mathlib

/-!
Shallow embedding of `scripts/license_checker/license_checker.py`.

File contents are modelled as lists of lines, each line a `List Char`
(Python `readlines` output: every line keeps its trailing newline except
possibly the last).  Paths are also `List Char`.  The embedding follows the
Python source line by line; each definition names the source function it
translates.
-/

/-- A Python string, modelled as its list of characters. -/
abbrev Chars := List Char

/-- Does `n` occur at the start of `h`?  (Helper for substring search.) -/
def hasPrefixL : Chars → Chars → Bool
  | [], _ => true
  | _ :: _, [] => false
  | a :: n, b :: h => a == b && hasPrefixL n h

/-- Does `n` occur as a contiguous substring of `h`?  This is
`re.search(re.escape(n), h)` truthiness: an escaped pattern matches exactly
as a literal substring, and the empty pattern always matches. -/
def hasInfixL (n : Chars) : Chars → Bool
  | [] => n.isEmpty
  | h@(_ :: t) => hasPrefixL n h || hasInfixL n t

/-- Python `str.strip()` whitespace set (ASCII). -/
def isPySpace (c : Char) : Bool :=
  c == ' ' || c == '\t' || c == '\n' || c == '\r' || c == '\x0b' || c == '\x0c'

/-- Drop characters satisfying `p` from the end of a list. -/
def dropWhileEnd (p : Char → Bool) (l : Chars) : Chars :=
  (l.reverse.dropWhile p).reverse

/-- Python `str.strip()`: remove leading and trailing whitespace. -/
def pyStrip (l : Chars) : Chars :=
  dropWhileEnd isPySpace (l.dropWhile isPySpace)

/-- Python `str.strip('\n')`: remove leading and trailing newline chars. -/
def stripNL (l : Chars) : Chars :=
  dropWhileEnd (· == '\n') (l.dropWhile (· == '\n'))

/-- The error categories of the checker (`class ErrorType(enum.Enum)`). -/
inductive ErrorType where
  | INVALID_LICENSE
  | NO_LICENSE
  | OUTDATED
  | LEN_MISMATCH
deriving DecidableEq

/-- `class Config`: one checked root with its comment style and ignore
lists.  The comment line prefix field (`prefix` in the source) is called
`pre` here because of Lean keyword restrictions. -/
structure Config where
  dir : Chars
  fileExtensions : List Chars
  startMultiComm : Chars
  endMultiComm : Chars
  pre : Chars
  ignoreListDir : List Chars
  ignoreListDirName : List Chars
  ignoreListFile : List Chars

/-- `Checker._checkLine(line, prefix)`: `re.search(re.escape(tok), line)`
truthiness, i.e. literal substring match. -/
def checkLine (line tok : Chars) : Bool := hasInfixL tok line

/-- `getLicense(start, prefix, end)`: wrap the template lines `LIC` in the
comment tokens.  The source builds `result` by successive appends; we fold
the template in the same order. -/
def getLicense (LIC : List Chars) (start pre stop : Chars) : List Chars :=
  (LIC.foldl
    (fun result i =>
      result ++ [if i = ['\n'] then pre else pre ++ [' '] ++ pyStrip i])
    [start]) ++ [pre, stop]

/-- `Checker.getLicense(self)`: the expected header for a config. -/
def checkerLicense (LIC : List Chars) (cfg : Config) : List Chars :=
  getLicense LIC cfg.startMultiComm cfg.pre cfg.endMultiComm

/-- The loop body of `Checker.findLicense`, with the accumulated result
represented by consing: `isStarted` is the loop flag, a `break` returns the
lines collected so far (here `[]`, resp. `[line]` when the breaking line
was first appended). -/
def findLicenseLoop (cfg : Config) (isStarted : Bool) : List Chars → List Chars
  | [] => []
  | line :: rest =>
    if line = ['\n'] then findLicenseLoop cfg isStarted rest
    else if checkLine line cfg.startMultiComm then
      line :: findLicenseLoop cfg true rest
    else if checkLine line cfg.endMultiComm then [line]
    else if isStarted then line :: findLicenseLoop cfg isStarted rest
    else []

/-- `Checker.findLicense(lines)`: extract the leading comment block. -/
def findLicense (cfg : Config) (lines : List Chars) : List Chars :=
  findLicenseLoop cfg false lines

/-- First match of the pattern `\d\d\d\d\-\d\d\d\d` starting at the head of
the list, if any. -/
def matchDateAt : Chars → Option Chars
  | a :: b :: c :: d :: h :: e :: f :: g :: k :: _ =>
    if a.isDigit && b.isDigit && c.isDigit && d.isDigit && h == '-'
        && e.isDigit && f.isDigit && g.isDigit && k.isDigit then
      some [a, b, c, d, h, e, f, g, k]
    else none
  | _ => none

/-- `re.search(r'\d\d\d\d\-\d\d\d\d', s)`: the leftmost match of the
year-range pattern. -/
def searchDate : Chars → Option Chars
  | [] => none
  | l@(_ :: t) =>
    match matchDateAt l with
    | some d => some d
    | none => searchDate t

/-- Numeric value of a digit string (`int(...)` on the matched year). -/
def natOfDigits (l : Chars) : Nat :=
  l.foldl (fun a c => a * 10 + (c.toNat - 48)) 0

/-- `date.split('-')[1]` parsed as an integer: the second year of a
matched `dddd-dddd` pattern (characters after the hyphen). -/
def secondYear (d : Chars) : Nat := natOfDigits (d.drop 5)

/-- `class Report`: path, error category and detail message.  The source
wraps the category in a `Error` object carrying a fixed message table; only
the category is behaviourally relevant, so it is stored directly. -/
structure Report where
  pathToFile : Chars
  error : ErrorType
  message : String
deriving DecidableEq

/-- Detail of a `LEN_MISMATCH` report (`f'Found {a} lines, expected {b}'`). -/
def lenMsg (a b : Nat) : String :=
  "Found " ++ toString a ++ " lines, expected " ++ toString b

/-- Detail of the final `INVALID_LICENSE` branch
(`f'Found {a} wrong lines out of {b}'`). -/
def wrongLinesMsg (a b : Nat) : String :=
  "Found " ++ toString a ++ " wrong lines out of " ++ toString b

/-- Detail of an `OUTDATED` report. -/
def dateMsg (td ld : Chars) : String :=
  "Found date " ++ String.mk td ++ ", expected " ++ String.mk ld

/-- Detail of the `INVALID_LICENSE` report for a malformed / out-of-range
date. -/
def dateBadMsg (td ld : Chars) : String :=
  "Found something similar to the date: " ++ String.mk td ++
    ", but it\x27s not correct. Expected: " ++ String.mk ld

/-- The indices `i` of the comparison loop in `Checker._checkLicense` at
which `license[i] != test[i].strip('\n')`. -/
def wrongIdxs (license test : List Chars) : List Nat :=
  (List.range license.length).filter
    (fun i => !(license.getD i [] == stripNL (test.getD i [])))

/-- `Checker._checkLicense(test, pathToFile)`.  Note that the source has no
early return for zero mismatches: `invalidLinesCount == 0` falls into the
final `else` branch, producing an `INVALID_LICENSE` report with detail
`Found 0 wrong lines out of N`.  `lastWrongLine` is initialised to `0` and
ends up as the last mismatched index. -/
def checkLicense (LIC : List Chars) (cfg : Config) (test : List Chars)
    (pathToFile : Chars) : Report :=
  let license := checkerLicense LIC cfg
  if license.length ≠ test.length then
    { pathToFile := pathToFile, error := ErrorType.LEN_MISMATCH,
      message := lenMsg test.length license.length }
  else
    let wrong := wrongIdxs license test
    if wrong.length = 1 then
      let lastWrongLine := wrong.getLastD 0
      match searchDate (test.getD lastWrongLine []),
          searchDate (license.getD lastWrongLine []) with
      | some testDate, some licenseDate =>
        if secondYear testDate < secondYear licenseDate then
          { pathToFile := pathToFile, error := ErrorType.OUTDATED,
            message := dateMsg testDate licenseDate }
        else
          { pathToFile := pathToFile, error := ErrorType.INVALID_LICENSE,
            message := dateBadMsg testDate licenseDate }
      | _, _ =>
        { pathToFile := pathToFile, error := ErrorType.INVALID_LICENSE,
          message := "Something wrong..." }
    else
      { pathToFile := pathToFile, error := ErrorType.INVALID_LICENSE,
        message := wrongLinesMsg wrong.length license.length }

/-- `Checker.checkFile(pathToFile)`: the reports appended for one file
(given the file's lines).  When the extracted block is empty, a
`NO_LICENSE` report is appended; otherwise `_checkLicense`'s result is
appended — the guard `if result:` in the source is always true, since a
`Report` object is always truthy in Python. -/
def checkFile (LIC : List Chars) (cfg : Config) (pathToFile : Chars)
    (lines : List Chars) : List Report :=
  let test := findLicense cfg lines
  if test.isEmpty then
    [{ pathToFile := pathToFile, error := ErrorType.NO_LICENSE, message := "" }]
  else
    [checkLicense LIC cfg test pathToFile]

/-- The fix actions of `class Fixer`: `_addLicense` prepends the expected
header; `_fixLicense` removes the extracted header lines and writes the
expected header in front of the remaining content. -/
inductive FixAction where
  | prependHeader
  | replaceHeader
deriving DecidableEq

/-- `Fixer._addLicense(pathToFile)`, as a transformation of the file's line
buffer: the expected header lines, each with a newline appended, followed
by the original content. -/
def addLicense (LIC : List Chars) (cfg : Config) (buffer : List Chars) :
    List Chars :=
  (checkerLicense LIC cfg).map (fun x => x ++ ['\n']) ++ buffer

/-- The branch conditions of `Fixer.fix` for a single report of category
`t`.  `FIX` is the configured auto-fix list; the loader leaves it empty
(`FIX = False` in the source) when the `fix` entry is absent or an empty
array, so Python's `not FIX` is `FIX = []` here. -/
def fixDecision (FIX : List ErrorType) (t : ErrorType) : Option FixAction :=
  if (FIX = [] ∧ t = ErrorType.NO_LICENSE) ∨
      (t = ErrorType.NO_LICENSE ∧ t ∈ FIX) then
    some FixAction.prependHeader
  else if (FIX = [] ∧ t ≠ ErrorType.NO_LICENSE) ∨
      (t ≠ ErrorType.NO_LICENSE ∧ t ∈ FIX) then
    some FixAction.replaceHeader
  else none

/-- `Fixer.fix()`: which files get fixed, and by which action, for a list
of collected reports. -/
def fixerFix (FIX : List ErrorType) (reports : List Report) :
    List (Chars × FixAction) :=
  reports.filterMap
    (fun r => (fixDecision FIX r.error).map (fun a => (r.pathToFile, a)))

mutual
/-- A directory tree: the model of the file system under one root. -/
inductive FileTree where
  | node (dirs : DirList) (files : List Chars) : FileTree
/-- The subdirectories of a tree node: name and subtree pairs. -/
inductive DirList where
  | nil : DirList
  | cons (name : Chars) (tree : FileTree) (rest : DirList) : DirList
end

/-- `os.path.join(address, name)` for a relative `name` on POSIX. -/
def pathJoin (a b : Chars) : Chars := a ++ '/' :: b

mutual
/-- `os.walk(root)` with `topdown=True`: the `(address, files)` pairs in
directory-tree order, the root first.  The source never prunes `dirs`, so
only addresses and file lists matter. -/
def osWalk (addr : Chars) : FileTree → List (Chars × List Chars)
  | FileTree.node dirs files => (addr, files) :: osWalkDirs addr dirs
/-- Walk the subdirectories of a node in order. -/
def osWalkDirs (addr : Chars) : DirList → List (Chars × List Chars)
  | DirList.nil => []
  | DirList.cons n t rest => osWalk (pathJoin addr n) t ++ osWalkDirs addr rest
end

/-- Split a path at `'/'` characters (helper for `os.path.normpath`). -/
def splitSlashAux : Chars → Chars → List Chars
  | [], acc => [acc.reverse]
  | c :: rest, acc =>
    if c = '/' then acc.reverse :: splitSlashAux rest []
    else splitSlashAux rest (c :: acc)

/-- Split a path into its `'/'`-separated components. -/
def splitSlash (l : Chars) : List Chars := splitSlashAux l []

/-- The component loop of `posixpath.normpath`; `acc` holds the processed
components in reverse order. -/
def normAux (isAbs : Bool) : List Chars → List Chars → List Chars
  | acc, [] => acc.reverse
  | acc, comp :: rest =>
    if comp = [] ∨ comp = ['.'] then normAux isAbs acc rest
    else if comp ≠ ['.', '.'] ∨ (¬isAbs ∧ acc = []) ∨ acc.headD [] = ['.', '.'] then
      normAux isAbs (comp :: acc) rest
    else if acc ≠ [] then normAux isAbs acc.tail rest
    else normAux isAbs acc rest

/-- Join components with `'/'`. -/
def joinSlash : List Chars → Chars
  | [] => []
  | [c] => c
  | c :: rest => c ++ '/' :: joinSlash rest

/-- `os.path.normpath` for POSIX paths: collapse `//`, `.` and `..`
components (a leading double slash is preserved, as in CPython). -/
def normpath (p : Chars) : Chars :=
  if p = [] then ['.']
  else
    let isAbs := p.headD ' ' = '/'
    let dblSlash := p.take 2 = ['/', '/'] ∧ p.take 3 ≠ ['/', '/', '/']
    let body := joinSlash (normAux isAbs [] (splitSlash p))
    let res :=
      if isAbs then (if dblSlash then '/' :: '/' :: body else '/' :: body)
      else body
    if res = [] then ['.'] else res

/-- Index of the last occurrence of `c` in `l` (`str.rfind`), if any. -/
def rfindIdx (c : Char) (l : Chars) : Option Nat :=
  ((List.range l.length).filter (fun i => l.getD i ' ' == c)).getLast?

/-- The extension part of `os.path.splitext(p)` for POSIX: the suffix from
the last dot, provided some earlier non-dot character follows the last
path separator (so `.bashrc` has no extension). -/
def splitextExt (p : Chars) : Chars :=
  match rfindIdx '.' p with
  | none => []
  | some d =>
    let s := match rfindIdx '/' p with
      | none => 0
      | some si => si + 1
    if d ≥ s ∧ ((List.range d).drop s).any (fun k => !(p.getD k ' ' == '.')) then
      p.drop d
    else []

/-- The two directory-level ignore checks of `Walker._getFiles`: the
`for/else` loops skip an address when any ignored directory name, or any
normalized ignored directory path, occurs in it as a substring. -/
def dirHit (cfg : Config) (addr : Chars) : Bool :=
  cfg.ignoreListDirName.any (fun i => hasInfixL i addr) ||
    cfg.ignoreListDir.any (fun i => hasInfixL (normpath i) addr)

/-- The file-level filter of `Walker._getFiles`: the joined path must not
be in the normalized ignore-file list, and the extension must be
configured. -/
def fileKeep (cfg : Config) (addr f : Chars) : Bool :=
  !((cfg.ignoreListFile.map normpath).contains (pathJoin addr f)) &&
    cfg.fileExtensions.contains (splitextExt f)

/-- `Walker._getFiles()`, keeping the `(address, filename)` structure of
each yielded path. -/
def getFilesPairs (cfg : Config) (t : FileTree) : List (Chars × Chars) :=
  (osWalk cfg.dir t).flatMap
    (fun p =>
      if dirHit cfg p.1 then []
      else (p.2.filter (fun f => fileKeep cfg p.1 f)).map (fun f => (p.1, f)))

/-- `Walker._getFiles()`: the yielded paths (`os.path.join(address, i)`). -/
def getFiles (cfg : Config) (t : FileTree) : List Chars :=
  (getFilesPairs cfg t).map (fun p => pathJoin p.1 p.2)

/-- `FIX_TYPES[x]`: dictionary lookup of an auto-fix category name. -/
def lookupFixType (s : String) : Option ErrorType :=
  if s = "OUTDATED" then some ErrorType.OUTDATED
  else if s = "NO_LICENSE" then some ErrorType.NO_LICENSE
  else if s = "INVALID_LICENSE" then some ErrorType.INVALID_LICENSE
  else if s = "LEN_MISMATCH" then some ErrorType.LEN_MISMATCH
  else none

/-- The message of the exception raised on a bad auto-fix name
(`except KeyError: raise Exception(...)` with `CONFIG_PATH` filled in). -/
def keyErrorMsg : String :=
  "KeyError. \"fix\" cannot process value. It must be an array of strings. " ++
    "Check config.json. Possible array values: \"OUTDATED\", \"NO_LICENSE\", " ++
    "\"INVALID_LICENSE\", \"LEN_MISMATCH\""

/-- The message of the exception raised on an empty license template. -/
def tmplErrMsg (tmplPath : String) : String :=
  "Error getting license template. Cannot read " ++ tmplPath ++
    " file. Is not it empty?"

/-- `list(map(lambda x: FIX_TYPES[x], ...))`: map the configured auto-fix
names to categories, raising (as an error value) on the first unknown
name. -/
def mapFixTypes : List String → Except String (List ErrorType)
  | [] => Except.ok []
  | x :: rest =>
    match lookupFixType x with
    | none => Except.error keyErrorMsg
    | some t =>
      match mapFixTypes rest with
      | Except.error e => Except.error e
      | Except.ok ts => Except.ok (t :: ts)

/-- The configuration document (`config.json`) as far as startup order is
concerned: the optional auto-fix name list and the per-root configs. -/
structure RawConfig where
  fix : Option (List String)
  configs : List Config

/-- The file accesses of a run: opening the license template, opening a
source file. -/
inductive FsEvent where
  | openTemplate
  | openSource (p : Chars)
deriving DecidableEq

/-- The module-level startup sequence of the script: process the `fix`
entry (possibly raising), then open and check the license template, then
walk the configured roots and open each yielded source file.  The result
pairs the outcome with the trace of file accesses, in order. -/
def startupRun (raw : RawConfig) (tmplPath : String)
    (templateLines : List Chars) (fs : FileTree) :
    Except String (List ErrorType) × List FsEvent :=
  let fixStep : Except String (List ErrorType) :=
    match raw.fix with
    | none => Except.ok []
    | some [] => Except.ok []
    | some names => mapFixTypes names
  match fixStep with
  | Except.error e => (Except.error e, [])
  | Except.ok fixv =>
    if templateLines.isEmpty then
      (Except.error (tmplErrMsg tmplPath), [FsEvent.openTemplate])
    else
      (Except.ok fixv,
        FsEvent.openTemplate ::
          raw.configs.flatMap (fun c => (getFiles c fs).map FsEvent.openSource))

/-- A concrete comment style used by the concrete-instance theorems below:
C-style block comments. -/
def cfgA : Config :=
  { dir := "root".data, fileExtensions := [".py".data],
    startMultiComm := "/*".data, endMultiComm := "*/".data, pre := " *".data,
    ignoreListDir := [], ignoreListDirName := [], ignoreListFile := [] }

/-- A concrete one-line license template. -/
def licA : List Chars := ["Test\n".data]

/-- A file whose header matches `checkerLicense licA cfgA` exactly. -/
def goodLines : List Chars :=
  ["/*\n".data, " * Test\n".data, " *\n".data, "*/\n".data]

/-- A concrete template containing a year range. -/
def licD : List Chars := ["Copyright 2020-2024\n".data]

/-- A header matching `checkerLicense licD cfgA` except for an outdated
year range on line 1. -/
def testD : List Chars :=
  ["/*".data, " * Copyright 2020-2023".data, " *".data, "*/".data]

/-- A config whose ignore lists name the directory `ign`, and a tree
containing an eligible file inside `ign`. -/
def cfgW : Config :=
  { dir := "root".data, fileExtensions := [".py".data],
    startMultiComm := "/*".data, endMultiComm := "*/".data, pre := " *".data,
    ignoreListDir := [], ignoreListDirName := ["ign".data],
    ignoreListFile := [] }

/-- A tree with one subdirectory `ign` holding `a.py`. -/
def treeW : FileTree :=
  FileTree.node (DirList.cons "ign".data
    (FileTree.node DirList.nil ["a.py".data]) DirList.nil) []

theorem hasPrefixL_iff (n : Chars) : ∀ h : Chars,
    (hasPrefixL n h = true ↔ ∃ s, h = n ++ s) := by
  induction n with
  | nil => intro h; simp [hasPrefixL]
  | cons a n ih =>
    intro h
    cases h with
    | nil =>
      simp [hasPrefixL]
    | cons b h' =>
      simp only [hasPrefixL, Bool.and_eq_true, beq_iff_eq, ih, List.cons_append,
        List.cons.injEq]
      constructor
      · rintro ⟨rfl, s, rfl⟩; exact ⟨s, rfl, rfl⟩
      · rintro ⟨s, rfl, rfl⟩; exact ⟨rfl, s, rfl⟩

theorem hasInfixL_iff (n : Chars) : ∀ h : Chars,
    (hasInfixL n h = true ↔ ∃ p s, h = p ++ n ++ s) := by
  intro h
  induction h with
  | nil =>
    simp only [hasInfixL, List.isEmpty_iff]
    constructor
    · rintro rfl; exact ⟨[], [], rfl⟩
    · rintro ⟨p, s, hp⟩
      rcases List.append_eq_nil.mp hp.symm with ⟨h1, h2⟩
      exact (List.append_eq_nil.mp h1).2
  | cons c t ih =>
    simp only [hasInfixL, Bool.or_eq_true, hasPrefixL_iff, ih]
    constructor
    · rintro (⟨s, hs⟩ | ⟨p, s, hs⟩)
      · exact ⟨[], s, by simpa using hs⟩
      · exact ⟨c :: p, s, by simp [hs]⟩
    · rintro ⟨p, s, hp⟩
      cases p with
      | nil => exact Or.inl ⟨s, by simpa using hp⟩
      | cons c' p' =>
        simp only [List.cons_append, List.cons.injEq] at hp
        exact Or.inr ⟨p', s, hp.2⟩

theorem hasInfixL_append_right (n h t : Chars) (hh : hasInfixL n h = true) :
    hasInfixL n (h ++ t) = true := by
  obtain ⟨p, s, rfl⟩ := (hasInfixL_iff n h).mp hh
  exact (hasInfixL_iff n _).mpr ⟨p, s ++ t, by simp⟩

theorem hasInfixL_append_left (n h p0 : Chars) (hh : hasInfixL n h = true) :
    hasInfixL n (p0 ++ h) = true := by
  obtain ⟨p, s, rfl⟩ := (hasInfixL_iff n h).mp hh
  exact (hasInfixL_iff n _).mpr ⟨p0 ++ p, s, by simp⟩

theorem dirHit_false_of_mem_pairs (cfg : Config) (t : FileTree) (a f : Chars)
    (h : (a, f) ∈ getFilesPairs cfg t) : dirHit cfg a = false := by
  simp only [getFilesPairs, List.mem_flatMap] at h
  obtain ⟨p, _, hmem⟩ := h
  cases hd : dirHit cfg p.1 with
  | true => simp [hd] at hmem
  | false =>
    simp only [hd, Bool.false_eq_true, if_false, List.mem_map,
      List.mem_filter] at hmem
    obtain ⟨f', _, heq⟩ := hmem
    have : p.1 = a := congrArg Prod.fst heq
    rw [← this]
    exact hd

/-- C7: the file walker never yields a path lying under a directory whose
name matches an ignored directory-name substring or whose normalized path
matches an ignored directory path: for any directory of parent address `A`
and name `n` hit by either ignore list, no yielded `(address, filename)`
pair has an address extending that directory's address — the entire subtree
is skipped, even if it contains files with configured extensions. -/
theorem getFilesPairs_skips_ignored_dirs (cfg : Config) (t : FileTree)
    (A n : Chars)
    (hig : (∃ i ∈ cfg.ignoreListDirName, hasInfixL i n = true) ∨
        (∃ i ∈ cfg.ignoreListDir, hasInfixL (normpath i) (pathJoin A n) = true))
    (a f : Chars) (hpre : hasPrefixL (pathJoin A n) a = true) :
    (a, f) ∉ getFilesPairs cfg t := by
  intro hmem
  have hd := dirHit_false_of_mem_pairs cfg t a f hmem
  obtain ⟨s, rfl⟩ := (hasPrefixL_iff _ _).mp hpre
  simp only [dirHit, Bool.or_eq_false_iff, List.any_eq_false] at hd
  rcases hig with ⟨i, hi, hin⟩ | ⟨i, hi, hin⟩
  · have h1 : hasInfixL i (pathJoin A n) = true := by
      have := hasInfixL_append_left i n (A ++ ['/']) hin
      simpa [pathJoin] using this
    have h2 := hasInfixL_append_right i (pathJoin A n) s h1
    exact absurd h2 (by simpa using hd.1 i hi)
  · have h2 := hasInfixL_append_right (normpath i) (pathJoin A n) s hin
    exact absurd h2 (by simpa using hd.2 i hi)

theorem getFilesPairs_skips_ignored_dirs_witness :
    ("root/ign".data, "a.py".data) ∉ getFilesPairs cfgW treeW :=
  getFilesPairs_skips_ignored_dirs cfgW treeW "root".data "ign".data
    (Or.inl ⟨"ign".data, by decide, by decide⟩) "root/ign".data "a.py".data
    (by decide)

theorem fixDecision_eq (FIX : List ErrorType) (t : ErrorType) :
    fixDecision FIX t =
      if FIX = [] ∨ t ∈ FIX then
        some (if t = ErrorType.NO_LICENSE then FixAction.prependHeader
          else FixAction.replaceHeader)
      else none := by
  by_cases h1 : FIX = [] <;> by_cases h2 : t = ErrorType.NO_LICENSE <;>
    by_cases h3 : t ∈ FIX <;>
      simp_all [fixDecision]

/-- C5: `Fixer.fix` fixes every finding when no auto-fix list is configured
(the loader leaves `FIX = []` then), and exactly the findings whose
category is in the list otherwise; a `NO_LICENSE` finding is fixed by
prepending the expected header (`_addLicense`) and every other fixed
finding by replacing the extracted header (`_fixLicense`). -/
theorem fixerFix_selection (FIX : List ErrorType) (reports : List Report) :
    fixerFix FIX reports =
      reports.filterMap (fun r =>
        if FIX = [] ∨ r.error ∈ FIX then
          some (r.pathToFile,
            if r.error = ErrorType.NO_LICENSE then FixAction.prependHeader
            else FixAction.replaceHeader)
        else none) := by
  unfold fixerFix
  congr 1
  funext r
  rw [fixDecision_eq]
  by_cases h : FIX = [] ∨ r.error ∈ FIX <;> simp [h]

theorem foldl_append_eq_map {α β : Type} (f : α → β) (L : List α) :
    ∀ init : List β,
      L.foldl (fun acc x => acc ++ [f x]) init = init ++ L.map f := by
  induction L with
  | nil => intro init; simp
  | cons a L ih => intro init; simp [ih]

/-- C8: `getLicense` produces exactly the start token, then for each
template line the bare line prefix if the line is blank and otherwise the
prefix, a space and the stripped line, then a trailing bare prefix, then
the end token; and it is deterministic. -/
theorem getLicense_shape_deterministic (LIC : List Chars)
    (start pre stop : Chars) :
    getLicense LIC start pre stop =
      [start] ++
        LIC.map (fun i => if i = ['\n'] then pre else pre ++ [' '] ++ pyStrip i) ++
        [pre, stop] ∧
    getLicense LIC start pre stop = getLicense LIC start pre stop := by
  refine ⟨?_, rfl⟩
  unfold getLicense
  rw [foldl_append_eq_map (fun i => if i = ['\n'] then pre else pre ++ [' '] ++ pyStrip i)]

theorem findLicenseLoop_blanks (cfg : Config) (st : Bool) (b rest : List Chars)
    (hb : ∀ x ∈ b, x = ['\n']) :
    findLicenseLoop cfg st (b ++ rest) = findLicenseLoop cfg st rest := by
  induction b with
  | nil => rfl
  | cons x b ih =>
    have hx := hb x (List.mem_cons_self x b)
    simp only [List.cons_append, findLicenseLoop, if_pos hx]
    exact ih (fun y hy => hb y (List.mem_cons_of_mem x hy))

theorem findLicenseLoop_started (cfg : Config) (mid : List Chars) (e : Chars)
    (post : List Chars)
    (hmid : ∀ l ∈ mid, l = ['\n'] ∨ checkLine l cfg.endMultiComm = false)
    (he1 : e ≠ ['\n']) (he2 : checkLine e cfg.startMultiComm = false)
    (he3 : checkLine e cfg.endMultiComm = true) :
    findLicenseLoop cfg true (mid ++ e :: post) =
      mid.filter (fun l => !(l == ['\n'])) ++ [e] := by
  induction mid with
  | nil =>
    simp [findLicenseLoop, if_neg he1, he2, he3]
  | cons l mid ih =>
    have hrest := ih (fun y hy => hmid y (List.mem_cons_of_mem l hy))
    by_cases hln : l = ['\n']
    · simp only [List.cons_append, findLicenseLoop, if_pos hln,
        List.filter_cons]
      simp only [hln]
      simpa using hrest
    · have hle : checkLine l cfg.endMultiComm = false := by
        rcases hmid l (List.mem_cons_self l mid) with h | h
        · exact absurd h hln
        · exact h
      cases hls : checkLine l cfg.startMultiComm with
      | true =>
        simp only [List.cons_append, findLicenseLoop, if_neg hln, hls,
          if_true, List.filter_cons]
        simp only [show (!(l == ['\n'])) = true by simpa using hln]
        simp [hrest]
      | false =>
        simp only [List.cons_append, findLicenseLoop, if_neg hln, hls, hle,
          Bool.false_eq_true, if_false, if_true, List.filter_cons]
        simp only [show (!(l == ['\n'])) = true by simpa using hln]
        simp [hrest]

/-- C3 counterexample: for the C comment style, a blank line lying between
the start-token line and the end-token line is NOT included in the
extracted header (the source skips every line equal to a single newline
before any token test), refuting the claim that every line between the
tokens is included regardless of content. -/
theorem findLicense_blank_skipped_cex :
    findLicense cfgA ["/*\n".data, "\n".data, "*/\n".data] =
      ["/*\n".data, "*/\n".data] ∧
    "\n".data ∉ findLicense cfgA ["/*\n".data, "\n".data, "*/\n".data] := by
  decide

/-- C3 (amended): between a start-token line and the first end-token line,
extraction includes every non-blank line unconditionally, regardless of
content, and skips the blank lines (lines equal to a single newline),
which are excluded from the extracted header. -/
theorem findLicense_between_tokens (cfg : Config) (s : Chars)
    (mid : List Chars) (e : Chars) (post : List Chars)
    (hs1 : s ≠ ['\n']) (hs2 : checkLine s cfg.startMultiComm = true)
    (hmid : ∀ l ∈ mid, l = ['\n'] ∨ checkLine l cfg.endMultiComm = false)
    (he1 : e ≠ ['\n']) (he2 : checkLine e cfg.startMultiComm = false)
    (he3 : checkLine e cfg.endMultiComm = true) :
    findLicense cfg (s :: (mid ++ e :: post)) =
      s :: (mid.filter (fun l => !(l == ['\n'])) ++ [e]) := by
  unfold findLicense
  simp only [findLicenseLoop, if_neg hs1, hs2, if_true]
  rw [findLicenseLoop_started cfg mid e post hmid he1 he2 he3]

theorem findLicense_between_tokens_witness :
    findLicense cfgA
        ["/*\n".data, "\n".data, " * X\n".data, "*/\n".data] =
      ["/*\n".data, " * X\n".data, "*/\n".data] := by
  have h := findLicense_between_tokens cfgA "/*\n".data
    ["\n".data, " * X\n".data] "*/\n".data [] (by decide) (by decide)
    (by decide) (by decide) (by decide) (by decide)
  exact h.trans (by decide)

/-- C10: when the first non-blank line of a file contains the end token
but not the start token, extraction returns the one-element sequence
holding that line, so the file is classified by header comparison — a
`LEN_MISMATCH` whenever the expected header is longer than one line —
rather than as `NO_LICENSE`. -/
theorem findLicense_end_token_first (LIC : List Chars) (cfg : Config)
    (p : Chars) (blanks : List Chars) (l : Chars) (rest : List Chars)
    (hb : ∀ x ∈ blanks, x = ['\n']) (hl : l ≠ ['\n'])
    (hs : checkLine l cfg.startMultiComm = false)
    (he : checkLine l cfg.endMultiComm = true) :
    findLicense cfg (blanks ++ l :: rest) = [l] ∧
    ((checkerLicense LIC cfg).length ≠ 1 →
      checkFile LIC cfg p (blanks ++ l :: rest) =
        [{ pathToFile := p, error := ErrorType.LEN_MISMATCH,
           message := lenMsg 1 (checkerLicense LIC cfg).length }]) := by
  have hfind : findLicense cfg (blanks ++ l :: rest) = [l] := by
    unfold findLicense
    rw [findLicenseLoop_blanks cfg false blanks _ hb]
    simp [findLicenseLoop, if_neg hl, hs, he]
  refine ⟨hfind, fun hlen => ?_⟩
  simp only [checkFile, hfind, List.isEmpty_cons, checkLicense,
    List.length_singleton, if_pos hlen, Bool.false_eq_true, if_false]

theorem findLicense_end_token_first_witness :
    checkFile licA cfgA "e.py".data ["\n".data, "*/\n".data] =
      [{ pathToFile := "e.py".data, error := ErrorType.LEN_MISMATCH,
         message := lenMsg 1 4 }] := by
  have h := (findLicense_end_token_first licA cfgA "e.py".data ["\n".data]
    "*/\n".data [] (by decide) (by decide) (by decide) (by decide)).2
    (by decide)
  exact h.trans (by decide)

/-- C6: for a non-empty extracted header whose length differs from the
expected header's length, `_checkLicense` classifies `LEN_MISMATCH`
regardless of line content, with both lengths recorded in the detail. -/
theorem checkLicense_length_mismatch (LIC : List Chars) (cfg : Config)
    (test : List Chars) (p : Chars) (_hne : test ≠ [])
    (hlen : (checkerLicense LIC cfg).length ≠ test.length) :
    checkLicense LIC cfg test p =
      { pathToFile := p, error := ErrorType.LEN_MISMATCH,
        message := lenMsg test.length (checkerLicense LIC cfg).length } := by
  simp only [checkLicense, if_pos hlen]

theorem checkLicense_length_mismatch_witness :
    checkLicense licA cfgA ["/*\n".data, "*/\n".data] "w.py".data =
      { pathToFile := "w.py".data, error := ErrorType.LEN_MISMATCH,
        message := lenMsg 2 4 } := by
  have h := checkLicense_length_mismatch licA cfgA
    ["/*\n".data, "*/\n".data] "w.py".data (by decide) (by decide)
  exact h.trans (by decide)

/-- C4: for an extracted header of the expected length differing in exactly
one position: when both differing lines contain the year-range pattern, the
classification is `OUTDATED` exactly when the extracted line's second year
is numerically less than the expected line's (with the found and expected
date strings in the detail), and `INVALID_LICENSE` when it is greater or
equal; when either line lacks the pattern, the classification is
`INVALID_LICENSE` (never `OUTDATED`). -/
theorem checkLicense_one_mismatch_classification (LIC : List Chars)
    (cfg : Config) (test : List Chars) (p : Chars) (k : Nat)
    (hlen : (checkerLicense LIC cfg).length = test.length)
    (hwrong : wrongIdxs (checkerLicense LIC cfg) test = [k]) :
    (∀ td ld, searchDate (test.getD k []) = some td →
        searchDate ((checkerLicense LIC cfg).getD k []) = some ld →
        checkLicense LIC cfg test p =
          if secondYear td < secondYear ld then
            { pathToFile := p, error := ErrorType.OUTDATED,
              message := dateMsg td ld }
          else
            { pathToFile := p, error := ErrorType.INVALID_LICENSE,
              message := dateBadMsg td ld }) ∧
    ((searchDate (test.getD k []) = none ∨
        searchDate ((checkerLicense LIC cfg).getD k []) = none) →
      checkLicense LIC cfg test p =
        { pathToFile := p, error := ErrorType.INVALID_LICENSE,
          message := "Something wrong..." }) := by
  have hnot : ¬ (checkerLicense LIC cfg).length ≠ test.length := by
    simp [hlen]
  have hk : ([k] : List Nat).getLastD 0 = k := by simp
  have hred : checkLicense LIC cfg test p =
      match searchDate (test.getD k []),
          searchDate ((checkerLicense LIC cfg).getD k []) with
      | some testDate, some licenseDate =>
        if secondYear testDate < secondYear licenseDate then
          { pathToFile := p, error := ErrorType.OUTDATED,
            message := dateMsg testDate licenseDate }
        else
          { pathToFile := p, error := ErrorType.INVALID_LICENSE,
            message := dateBadMsg testDate licenseDate }
      | _, _ =>
        { pathToFile := p, error := ErrorType.INVALID_LICENSE,
          message := "Something wrong..." } := by
    simp only [checkLicense, if_neg hnot, hwrong, List.length_singleton,
      eq_self_iff_true, if_true, hk]
  constructor
  · intro td ld htd hld
    rw [hred, htd, hld]
  · intro hcase
    rcases hcase with h | h
    · cases hld : searchDate ((checkerLicense LIC cfg).getD k []) with
      | none => rw [hred, h, hld]
      | some ld => rw [hred, h, hld]
    · cases htd : searchDate (test.getD k []) with
      | none => rw [hred, htd, h]
      | some td => rw [hred, htd, h]

theorem checkLicense_outdated_witness :
    checkLicense licD cfgA testD "c.py".data =
      { pathToFile := "c.py".data, error := ErrorType.OUTDATED,
        message := "Found date 2020-2023, expected 2020-2024" } := by
  have h := (checkLicense_one_mismatch_classification licD cfgA testD
    "c.py".data 1 (by decide) (by decide)).1 "2020-2023".data
    "2020-2024".data (by decide) (by decide)
  exact h.trans (by decide)

/-- C1 (code bug evaluation): on a file whose header matches the expected
header exactly (zero mismatched positions), `_checkLicense` does NOT pass:
it returns an `INVALID_LICENSE` report with detail `Found 0 wrong lines out
of 4`, and `checkFile` records it — the source lacks the early return for
zero mismatches, so the always-truthy report is appended. -/
theorem checkFile_zero_mismatch_reports_invalid :
    wrongIdxs (checkerLicense licA cfgA) (findLicense cfgA goodLines) = [] ∧
    checkFile licA cfgA "good.py".data goodLines =
      [{ pathToFile := "good.py".data, error := ErrorType.INVALID_LICENSE,
         message := wrongLinesMsg 0 4 }] := by
  decide

/-- C2 (code bug evaluation): prepending the expected header to a file with
no header (the `NoHeader` fix action) and re-running extraction and
validation does NOT yield a pass: the re-extracted header matches in every
position, yet an `INVALID_LICENSE` report with detail `Found 0 wrong lines
out of 4` is produced, by the same missing zero-mismatch return. -/
theorem addLicense_roundtrip_reports_invalid :
    findLicense cfgA ["x = 1\n".data] = [] ∧
    checkFile licA cfgA "b.py".data (addLicense licA cfgA ["x = 1\n".data]) =
      [{ pathToFile := "b.py".data, error := ErrorType.INVALID_LICENSE,
         message := wrongLinesMsg 0 4 }] := by
  decide

theorem lookupFixType_eq_none (s : String)
    (h : s ∉ (["OUTDATED", "NO_LICENSE", "INVALID_LICENSE",
        "LEN_MISMATCH"] : List String)) :
    lookupFixType s = none := by
  simp only [List.mem_cons, List.not_mem_nil, or_false] at h
  push_neg at h
  obtain ⟨h1, h2, h3, h4⟩ := h
  simp [lookupFixType, h1, h2, h3, h4]

theorem mapFixTypes_err (names : List String) (s : String) (hs : s ∈ names)
    (hn : lookupFixType s = none) :
    mapFixTypes names = Except.error keyErrorMsg := by
  induction names with
  | nil => cases hs
  | cons a l ih =>
    rcases List.mem_cons.mp hs with rfl | hmem
    · simp [mapFixTypes, hn]
    · cases ha : lookupFixType a with
      | none => simp [mapFixTypes, ha]
      | some t => simp [mapFixTypes, ha, ih hmem]

/-- C9: when the configured auto-fix list contains a name outside
`{OUTDATED, NO_LICENSE, INVALID_LICENSE, LEN_MISMATCH}`, configuration
loading stops with the descriptive `KeyError` exception and the run
performs no file access at all: the license template is never opened and no
source file is opened. -/
theorem startupRun_bad_fix_fails_fast (raw : RawConfig) (tmplPath : String)
    (templateLines : List Chars) (fs : FileTree) (names : List String)
    (s : String) (hf : raw.fix = some names) (hs : s ∈ names)
    (hbad : s ∉ (["OUTDATED", "NO_LICENSE", "INVALID_LICENSE",
        "LEN_MISMATCH"] : List String)) :
    startupRun raw tmplPath templateLines fs =
      (Except.error keyErrorMsg, []) := by
  have herr := mapFixTypes_err names s hs (lookupFixType_eq_none s hbad)
  cases names with
  | nil => cases hs
  | cons a l =>
    simp only [startupRun, hf, herr]

theorem startupRun_bad_fix_fails_fast_witness :
    startupRun { fix := some ["FOO"], configs := [cfgA] } "tmpl.txt" licA
        treeW =
      (Except.error keyErrorMsg, []) :=
  startupRun_bad_fix_fails_fast
    { fix := some ["FOO"], configs := [cfgA] } "tmpl.txt" licA treeW
    ["FOO"] "FOO" rfl (by decide) (by decide)
